import Mathlib

/-!
Verification of the file discovery, filtering, classification and chunking
pipeline of the readme-vsce extension, shallowly embedded from the
TypeScript sources (`gitignoreParser.ts`, the codebase analyzer,
`perplexityClient.ts`, `readmeGenerator.ts`).

All string operations are defined over the underlying character lists so
that every definition evaluates by kernel reduction.
-/

set_option maxRecDepth 10000

/-! ## String primitives (character-list based) -/

/-- `pre` is a prefix of `s` (JS `String.prototype.startsWith`). -/
def strStartsWith (s pre : String) : Bool :=
  pre.toList.isPrefixOf s.toList

/-- `post` is a suffix of `s` (JS `String.prototype.endsWith`). -/
def strEndsWith (s post : String) : Bool :=
  post.toList.isSuffixOf s.toList

/-- `s` contains the character `c` (JS `String.prototype.includes` with a
one-character needle). -/
def strContainsChar (s : String) (c : Char) : Bool :=
  s.toList.contains c

/-- Split on a separator character, JS `String.prototype.split` semantics
(`"" ↦ [""]`, separators at the ends produce empty fields). -/
def splitCharAux (sep : Char) : List Char → List Char → List (List Char)
  | [], acc => [acc.reverse]
  | c :: cs, acc =>
      if c == sep then acc.reverse :: splitCharAux sep cs []
      else splitCharAux sep cs (c :: acc)

/-- `/`-segments of a path string (JS `path.split('/')`). -/
def splitSegments (p : String) : List String :=
  (splitCharAux '/' p.toList []).map fun cs => String.mk cs

/-- Drop the last `n` characters (JS `slice(0, -n)`). -/
def strDropRight (s : String) (n : Nat) : String :=
  String.mk (s.toList.take (s.toList.length - n))

/-- Drop the first `n` characters. -/
def strDrop (s : String) (n : Nat) : String :=
  String.mk (s.toList.drop n)

/-- Replace every backslash by a forward slash
(the source's `relativePath.replace(/\\/g, '/')`). -/
def backslashToSlash (s : String) : String :=
  String.mk (s.toList.map fun c => if c == '\\' then '/' else c)

/-- ASCII lowercasing (JS `String.prototype.toLowerCase` on the ASCII
file names this pipeline compares). -/
def strToLower (s : String) : String :=
  String.mk (s.toList.map Char.toLower)

/-- Whitespace test for `strTrim`. -/
def isSpaceChar (c : Char) : Bool :=
  c == ' ' || c == '\t' || c == '\n' || c == '\r'

/-- JS `String.prototype.trim` on ASCII whitespace. -/
def strTrim (s : String) : String :=
  String.mk (((s.toList.dropWhile isSpaceChar).reverse.dropWhile isSpaceChar).reverse)

/-- Join a list of strings with a separator (JS `Array.prototype.join`). -/
def joinWith (sep : String) (ss : List String) : String :=
  String.mk (List.intercalate sep.toList (ss.map String.toList))

/-! ## Gitignore rules (`gitignoreParser.ts`) -/

/-- Embeds the `GitignoreRule` interface from `types.ts`:
`{pattern, isNegation, isDirectory}`. -/
structure GitignoreRule where
  pattern : String
  isNegation : Bool
  isDirectory : Bool
deriving DecidableEq

/-- One atom of the regex built by `matchesPattern` from a wildcard pattern:
the source escapes `.` (a literal), turns `*` into `.*` and `?` into `.`.
All other pattern characters are modelled as literals. -/
inductive RAtom where
  | lit (c : Char)
  | anyOne
  | anyStar
deriving DecidableEq

/-- Embeds the regex compilation of `matchesPattern`
(`pattern.replace(/\./g,'\\.').replace(/\*/g,'.*').replace(/\?/g,'.')`):
`*` becomes an unrestricted star, `?` a single-character wildcard and every
other character a literal. -/
def compileGlob (pat : List Char) : List RAtom :=
  pat.map fun c => if c == '*' then RAtom.anyStar else if c == '?' then RAtom.anyOne else RAtom.lit c

/-- Anchored regex matching over the atoms of `compileGlob`, fuelled so that
the recursion is structural (each step consumes pattern or input, so
`|pattern| + |input| + 1` fuel always suffices). -/
def reMatchAux : Nat → List RAtom → List Char → Bool
  | 0, _, _ => false
  | _ + 1, [], s => s.isEmpty
  | _ + 1, RAtom.lit _ :: _, [] => false
  | fuel + 1, RAtom.lit c :: ps, x :: xs => c == x && reMatchAux fuel ps xs
  | _ + 1, RAtom.anyOne :: _, [] => false
  | fuel + 1, RAtom.anyOne :: ps, _ :: xs => reMatchAux fuel ps xs
  | fuel + 1, RAtom.anyStar :: ps, [] => reMatchAux fuel ps []
  | fuel + 1, RAtom.anyStar :: ps, x :: xs =>
      reMatchAux fuel ps (x :: xs) || reMatchAux fuel (RAtom.anyStar :: ps) xs

/-- Anchored (`'^' ++ pattern ++ '$'`) full match of a compiled pattern. -/
def reMatch (ps : List RAtom) (s : List Char) : Bool :=
  reMatchAux (ps.length + s.length + 1) ps s

/-- Embeds Node's `path.basename` for the forward-slash separated,
no-trailing-slash paths this pipeline produces: the final `/`-segment. -/
def basename (p : String) : String :=
  ((splitSegments p).getLast?).getD ""

/-- Embeds `GitignoreParser.matchesPattern`: a `/**` suffix gets directory
treatment; otherwise a pattern containing `*` is compiled to a regex and
tried against the full path, the basename and every segment; otherwise the
literal pattern is tried by equality, prefix-plus-slash, basename and
segment membership. -/
def matchesPattern (filePath pattern : String) : Bool :=
  if strEndsWith pattern "/**" then
    let dirPattern := strDropRight pattern 3
    strStartsWith filePath (dirPattern ++ "/") ||
      filePath == dirPattern ||
      (splitSegments filePath).any (fun segment => segment == dirPattern)
  else if strContainsChar pattern '*' then
    let regex := compileGlob pattern.toList
    reMatch regex filePath.toList ||
      reMatch regex (basename filePath).toList ||
      (splitSegments filePath).any (fun segment => reMatch regex segment.toList)
  else
    filePath == pattern ||
      strStartsWith filePath (pattern ++ "/") ||
      basename filePath == pattern ||
      (splitSegments filePath).contains pattern

/-- Embeds Node's `path.relative(root, p)` for the only shapes produced by
the traversal: `p` equal to the root or strictly below it. -/
def pathRelative (root filePath : String) : String :=
  if filePath == root then ""
  else if strStartsWith filePath (root ++ "/") then strDrop filePath (root ++ "/").toList.length
  else filePath

/-- The normalization at the top of `shouldIgnore`:
`path.relative(workspaceRoot, filePath).replace(/\\/g, '/')`. -/
def normalizedRelativePath (workspaceRoot filePath : String) : String :=
  backslashToSlash (pathRelative workspaceRoot filePath)

/-- Embeds `GitignoreParser.shouldIgnore`: fold over all rules in insertion
order, a matching rule overwriting the running flag with `!rule.isNegation`. -/
def shouldIgnore (rules : List GitignoreRule) (workspaceRoot filePath : String) : Bool :=
  let normalizedPath := normalizedRelativePath workspaceRoot filePath
  rules.foldl
    (fun acc rule => if matchesPattern normalizedPath rule.pattern then !rule.isNegation else acc)
    false

/-- The last rule in the list whose pattern matches the given normalized
path (specification-side notion used to state last-match-wins). -/
def lastMatchingRule (rules : List GitignoreRule) (normalizedPath : String) : Option GitignoreRule :=
  rules.reverse.find? fun rule => matchesPattern normalizedPath rule.pattern


/-! ## Binary file detection (`gitignoreParser.ts`) -/

/-- Suffix of `cs` starting at its last `'.'`, if any. -/
def lastDotSuffix : List Char → Option (List Char)
  | [] => none
  | c :: cs =>
    match lastDotSuffix cs with
    | some s => some s
    | none => if c == '.' then some (c :: cs) else none

/-- Embeds Node's `path.extname`: the suffix of the basename from its last
dot, where a dot in first position does not start an extension. -/
def extname (p : String) : String :=
  match (basename p).toList with
  | [] => ""
  | _ :: rest =>
    match lastDotSuffix rest with
    | some s => String.mk s
    | none => ""

/-- The fixed denylist of `GitignoreParser.isBinaryFile`. -/
def binaryExtensions : List String :=
  [".exe", ".dll", ".so", ".dylib", ".bin", ".obj", ".o", ".a", ".lib",
   ".jpg", ".jpeg", ".png", ".gif", ".bmp", ".ico", ".svg", ".tiff",
   ".tif", ".webp", ".heic", ".psd", ".ai",
   ".mp4", ".avi", ".mov", ".wmv", ".flv", ".webm", ".mkv", ".m4v",
   ".mp3", ".wav", ".flac", ".aac", ".ogg", ".wma", ".m4a",
   ".zip", ".rar", ".7z", ".tar", ".gz", ".bz2", ".xz", ".tgz",
   ".pdf", ".doc", ".docx", ".xls", ".xlsx", ".ppt", ".pptx",
   ".sqlite", ".sqlite3", ".db", ".mdb", ".accdb",
   ".ttf", ".otf", ".woff", ".woff2", ".eot",
   ".pem", ".key", ".crt", ".cer", ".p12", ".pfx",
   ".class", ".pyc", ".pyo", ".wasm", ".beam"]

/-- Embeds `GitignoreParser.isBinaryFile`: lowercased extension in the
fixed denylist. -/
def isBinaryFile (filePath : String) : Bool :=
  binaryExtensions.contains (strToLower (extname filePath))

/-! ## File discovery (`CodebaseAnalyzer.discoverFiles`) -/

mutual

/-- A directory tree: the file-system shape the traversal walks
(mutual with `FSEntryList` so that all recursion is structural). -/
inductive FSEntry where
  | file (name : String)
  | dir (name : String) (children : FSEntryList)

/-- The entries of one directory, in enumeration order. -/
inductive FSEntryList where
  | nil
  | cons (entry : FSEntry) (rest : FSEntryList)

end

/-- Build an `FSEntryList` from a plain list (for concrete instances). -/
def FSEntryList.ofList : List FSEntry → FSEntryList
  | [] => FSEntryList.nil
  | e :: rest => FSEntryList.cons e (FSEntryList.ofList rest)

mutual

/-- One step of the recursive `traverseDirectory` closure of
`discoverFiles`: a sub-directory is entered only when not ignored, a
regular file is kept only when neither ignored nor binary. -/
def traverseEntry (rules : List GitignoreRule) (workspaceRoot : String) :
    FSEntry → String → List String
  | FSEntry.dir name children, dirPath =>
      let fullPath := dirPath ++ "/" ++ name
      if !shouldIgnore rules workspaceRoot fullPath
        then traverseDirectory rules workspaceRoot children fullPath
        else []
  | FSEntry.file name, dirPath =>
      let fullPath := dirPath ++ "/" ++ name
      if !shouldIgnore rules workspaceRoot fullPath && !isBinaryFile fullPath
        then [fullPath] else []

/-- Embeds the `traverseDirectory` closure of `discoverFiles`: handle the
directory's entries in order, accumulating accepted file paths. -/
def traverseDirectory (rules : List GitignoreRule) (workspaceRoot : String) :
    FSEntryList → String → List String
  | FSEntryList.nil, _ => []
  | FSEntryList.cons entry rest, dirPath =>
      traverseEntry rules workspaceRoot entry dirPath ++
        traverseDirectory rules workspaceRoot rest dirPath

end

/-- Embeds `CodebaseAnalyzer.discoverFiles`: start the traversal at the
workspace root. -/
def discoverFiles (rules : List GitignoreRule) (workspaceRoot : String)
    (entries : FSEntryList) : List String :=
  traverseDirectory rules workspaceRoot entries workspaceRoot

/-! ## File records and chunking (`CodebaseAnalyzer`, `PerplexityClient`) -/

/-- Embeds the `FileInfo` interface from `types.ts`. -/
structure FileInfo where
  path : String
  content : String
  size : Nat
  language : String
  isMainFile : Bool
deriving DecidableEq

/-- Embeds `PerplexityClient.estimateTokenCount`: `Math.ceil(text.length / 4)`. -/
def estimateTokenCount (text : String) : Nat :=
  (text.toList.length + 3) / 4

/-- Sum of per-file token estimates of a file list under estimator `est`. -/
def tokenSum (est : String → Nat) (files : List FileInfo) : Nat :=
  (files.map fun f => est f.content).sum

/-- Insertion-ordered deduplication: the observable content of a JS `Set`
built by successive `add` calls. -/
def dedupKeepFirst (xs : List String) : List String :=
  xs.foldl (fun acc x => if acc.contains x then acc else acc ++ [x]) []

/-- Embeds the `CodeChunk` interface from `types.ts`. -/
structure CodeChunk where
  files : List FileInfo
  totalTokens : Nat
  chunkIndex : Nat
  description : String
deriving DecidableEq

/-- Embeds `CodebaseAnalyzer.createChunk`. -/
def createChunk (files : List FileInfo) (totalTokens : Nat) (chunkIndex : Nat) : CodeChunk :=
  let languages := dedupKeepFirst (files.map fun f => f.language)
  let hasMainFiles := files.any fun f => f.isMainFile
  let description :=
    "Chunk " ++ toString (chunkIndex + 1) ++
      (if hasMainFiles then " (contains main files)" else "") ++
      " - " ++ joinWith ", " languages ++ " files"
  { files := files, totalTokens := totalTokens, chunkIndex := chunkIndex,
    description := description }

/-- Embeds the sort comparator of `createCodeChunks`:
entry files first, then descending size. -/
def cmpFile (a b : FileInfo) : Int :=
  if a.isMainFile && !b.isMainFile then -1
  else if !a.isMainFile && b.isMainFile then 1
  else (b.size : Int) - (a.size : Int)

/-- Stable insertion of `x` after every already-placed element that does
not compare strictly after it. -/
def insertFile (x : FileInfo) : List FileInfo → List FileInfo
  | [] => [x]
  | y :: ys => if cmpFile y x ≤ 0 then y :: insertFile x ys else x :: y :: ys

/-- The stable sort `fileInfos.sort(comparator)` performed by
`createCodeChunks` (ECMAScript sort is stable). -/
def sortFiles (fileInfos : List FileInfo) : List FileInfo :=
  fileInfos.foldl (fun acc x => insertFile x acc) []

/-- The packing loop of `createCodeChunks` over the sorted file list,
carrying the current chunk, its running token total and the next chunk
index: close the current chunk before a file that would overflow the
budget, then append the file, then isolate it if it alone exceeds the
budget. -/
def chunkLoop (est : String → Nat) (maxTokensPerChunk : Nat) :
    List FileInfo → List FileInfo → Nat → Nat → List CodeChunk
  | [], currentChunk, currentTokens, chunkIndex =>
      if currentChunk.isEmpty then [] else [createChunk currentChunk currentTokens chunkIndex]
  | file :: rest, currentChunk, currentTokens, chunkIndex =>
      let fileTokens := est file.content
      if currentTokens + fileTokens > maxTokensPerChunk ∧ 0 < currentChunk.length then
        createChunk currentChunk currentTokens chunkIndex ::
          (if fileTokens > maxTokensPerChunk then
            createChunk [file] fileTokens (chunkIndex + 1) ::
              chunkLoop est maxTokensPerChunk rest [] 0 (chunkIndex + 2)
          else
            chunkLoop est maxTokensPerChunk rest [file] fileTokens (chunkIndex + 1))
      else
        if fileTokens > maxTokensPerChunk then
          createChunk [file] fileTokens chunkIndex ::
            chunkLoop est maxTokensPerChunk rest [] 0 (chunkIndex + 1)
        else
          chunkLoop est maxTokensPerChunk rest (currentChunk ++ [file])
            (currentTokens + fileTokens) chunkIndex

/-- Embeds `CodebaseAnalyzer.createCodeChunks`, parametric in the token
estimator and budget (the source uses `estimateTokenCount` and the
`maxTokensPerChunk` field, default 5000). -/
def createCodeChunks (est : String → Nat) (maxTokensPerChunk : Nat)
    (fileInfos : List FileInfo) : List CodeChunk :=
  chunkLoop est maxTokensPerChunk (sortFiles fileInfos) [] 0 0

/-! ## Project analysis (`CodebaseAnalyzer`) -/

/-- The `hasFile` helper of `determineProjectType`:
some record whose lowercased basename equals `name`. -/
def hasFile (fileInfos : List FileInfo) (name : String) : Bool :=
  fileInfos.any fun f => strToLower (basename f.path) == name

/-- The `hasExtension` helper of `determineProjectType`:
some record whose path ends with `ext`. -/
def hasExtension (fileInfos : List FileInfo) (ext : String) : Bool :=
  fileInfos.any fun f => strEndsWith f.path ext

/-- Embeds `CodebaseAnalyzer.determineProjectType`: the ordered
first-match-wins cascade over manifest files, then the language fallback. -/
def determineProjectType (fileInfos : List FileInfo) (languages : List String) : String :=
  if hasFile fileInfos "package.json" then
    if hasExtension fileInfos ".jsx" || hasExtension fileInfos ".tsx" then "React Application"
    else if hasExtension fileInfos ".vue" then "Vue.js Application"
    else if hasFile fileInfos "next.config.js" || hasFile fileInfos "next.config.ts" then
      "Next.js Application"
    else "Node.js Application"
  else if hasFile fileInfos "setup.py" || hasFile fileInfos "requirements.txt" then
    if hasFile fileInfos "manage.py" then "Django Application" else "Python Project"
  else if hasFile fileInfos "pom.xml" then "Maven Java Project"
  else if hasFile fileInfos "build.gradle" then "Gradle Java Project"
  else if hasFile fileInfos "go.mod" then "Go Module"
  else if hasFile fileInfos "cargo.toml" then "Rust Project"
  else if hasFile fileInfos "pubspec.yaml" then "Flutter Application"
  else
    match languages with
    | lang :: _ => lang ++ " Project"
    | [] => "Software Project"

/-- Embeds Node's `path.dirname` for relative forward-slash paths. -/
def dirname (p : String) : String :=
  let segments := splitSegments p
  if segments.length ≤ 1 then "." else joinWith "/" segments.dropLast

/-- Embeds the `ProjectStructure` interface from `types.ts`. -/
structure ProjectStructure where
  directories : List String
  importantFiles : List String
  configFiles : List String
  sourceFiles : List String
  testFiles : List String
  documentationFiles : List String
deriving DecidableEq

/-- Embeds the `CodebaseAnalysis` interface from `types.ts`; the
`dependencies`/`frameworks` fields (JSON manifest parsing) are outside the
claims and not modelled. -/
structure CodebaseAnalysis where
  totalFiles : Nat
  totalSize : Nat
  languages : List String
  mainFiles : List String
  projectType : String
  projectStructure : ProjectStructure
deriving DecidableEq

/-- Embeds `CodebaseAnalyzer.analyzeProjectStructure`: one pass
accumulating size, the insertion-ordered language set, entry files and
directories; the project type is computed from the records and the
unfiltered language set, while the reported language list filters out
`"Unknown"`. -/
def analyzeProjectStructure (fileInfos : List FileInfo) : CodebaseAnalysis :=
  let languages := dedupKeepFirst (fileInfos.map fun f => f.language)
  let mainFiles := (fileInfos.filter fun f => f.isMainFile).map fun f => f.path
  let totalSize := (fileInfos.map fun f => f.size).sum
  let directories :=
    dedupKeepFirst (((fileInfos.map fun f => dirname f.path).filter
      fun d => !(d == "") && !(d == ".")))
  let projectType := determineProjectType fileInfos languages
  let ps : ProjectStructure :=
    { directories := directories, importantFiles := mainFiles,
      configFiles := [], sourceFiles := [], testFiles := [],
      documentationFiles := [] }
  { totalFiles := fileInfos.length, totalSize := totalSize,
    languages := languages.filter (fun lang => !(lang == "Unknown")),
    mainFiles := mainFiles, projectType := projectType,
    projectStructure := ps }

/-! ## Credential validation (`PerplexityClient`, `CodebaseAnalyzer`) -/

/-- JS truthiness of `process.env.X` seen as `Option String`:
`undefined` and `""` are falsy. -/
def optionTruthy : Option String → Bool
  | none => false
  | some s => !(s == "")

/-- Embeds `PerplexityClient.validateAPIKey` together with the
constructor's `this.apiKey = process.env.PERPLEXITY_API_KEY!`: the stored
key is the environment value itself, and the check is
`!!apiKey && apiKey.trim() !== '' && apiKey !== process.env.PERPLEXITY_API_KEY`. -/
def validateAPIKey (envApiKey : Option String) : Bool :=
  let apiKey := envApiKey
  optionTruthy apiKey &&
    !((apiKey.map strTrim).getD "" == "") &&
    !(apiKey == envApiKey)

/-- The `{isValid, error?}` result of `validateWorkspace`. -/
structure WorkspaceValidation where
  isValid : Bool
  error : Option String
deriving DecidableEq

/-- Embeds `CodebaseAnalyzer.validateWorkspace`: missing root fails first,
then the API-key check, else valid. -/
def validateWorkspace (workspaceRootExists : Bool) (envApiKey : Option String) :
    WorkspaceValidation :=
  if !workspaceRootExists then
    { isValid := false, error := some "Workspace root does not exist" }
  else if !validateAPIKey envApiKey then
    { isValid := false,
      error := some "Invalid Perplexity API key. Please configure your API key in settings." }
  else
    { isValid := true, error := none }

/-! ## Per-chunk generation with fallback (`readmeGenerator.ts`) -/

/-- Embeds `ReadmeGenerator.createFallbackContent`: a stub document listing
the chunk's file paths for the first chunk, a fixed placeholder section
otherwise. -/
def createFallbackContent (chunk : CodeChunk) (isFirstChunk : Bool) : String :=
  if isFirstChunk then
    "# Project README\n\n## Overview\nThis is an auto-generated README for your project.\n\n## Files Analyzed\n" ++
      joinWith "\n" (chunk.files.map fun file => "- " ++ file.path) ++
      "\n\n*Note: This content was generated as a fallback due to AI processing issues.*"
  else
    "\n## Additional Components\n\n*Additional project components detected but could not be processed by AI.*"

/-- Embeds `ReadmeGenerator.processChunks` with the remote call abstracted
as an outcome function `generate chunk isFirstChunk`: a failed call is
caught per chunk and replaced by `createFallbackContent`. -/
def processChunks (generate : CodeChunk → Bool → Except String String)
    (chunks : List CodeChunk) : List String :=
  chunks.enum.map fun p =>
    match generate p.2 (p.1 == 0) with
    | Except.ok content => content
    | Except.error _ => createFallbackContent p.2 (p.1 == 0)


/-! ## Concrete sample data used by witnesses and counterexamples -/

/-- C5 example record A: entry file, size 10. -/
def recEntry10 : FileInfo := ⟨"index.js", "", 10, "JavaScript", true⟩
/-- C5 example record B: non-entry file, size 100. -/
def recNonEntry100 : FileInfo := ⟨"b.js", "", 100, "JavaScript", false⟩
/-- C5 example record C: non-entry file, size 50. -/
def recNonEntry50 : FileInfo := ⟨"c.js", "", 50, "JavaScript", false⟩
/-- Entry file of size 10, listed before `recEntryApp20`. -/
def recEntryMain10 : FileInfo := ⟨"main.ts", "", 10, "TypeScript", true⟩
/-- Entry file of size 20, listed after `recEntryMain10`. -/
def recEntryApp20 : FileInfo := ⟨"app.ts", "", 20, "TypeScript", true⟩

/-- Small record with 4-character content (1 estimated token). -/
def recSmallA : FileInfo := ⟨"a.ts", "aaaa", 4, "TypeScript", false⟩
/-- Small record with 8-character content (2 estimated tokens). -/
def recSmallB : FileInfo := ⟨"b.ts", "bbbbbbbb", 8, "TypeScript", false⟩

/-- A `package.json` record. -/
def recPackageJson : FileInfo := ⟨"package.json", "", 1, "JSON", true⟩
/-- An `app.tsx` record. -/
def recAppTsx : FileInfo := ⟨"app.tsx", "", 1, "React TSX", false⟩
/-- A `requirements.txt` record. -/
def recRequirements : FileInfo := ⟨"requirements.txt", "", 1, "Text", true⟩
/-- A `manage.py` record. -/
def recManagePy : FileInfo := ⟨"manage.py", "", 1, "Python", false⟩
/-- A `go.mod` record. -/
def recGoMod : FileInfo := ⟨"go.mod", "", 1, "Unknown", false⟩
/-- A record with no recognized extension: language label `"Unknown"`. -/
def recUnknownData : FileInfo := ⟨"data", "", 1, "Unknown", false⟩

/-- The manifest basenames probed by the project-type cascade. -/
def manifestNames : List String :=
  ["package.json", "setup.py", "requirements.txt", "pom.xml", "build.gradle",
   "go.mod", "cargo.toml", "pubspec.yaml"]

/-- Sample ignore rules for the discovery witness. -/
def sampleRules : List GitignoreRule := [⟨"*.log", false, false⟩]

/-- Sample directory tree for the discovery witness. -/
def sampleTree : FSEntryList :=
  FSEntryList.ofList [FSEntry.file "a.ts", FSEntry.file "x.log", FSEntry.file "logo.png"]

/-- Remote-call outcome that fails on the first chunk and succeeds later. -/
def genFailFirst : CodeChunk → Bool → Except String String :=
  fun _ isFirstChunk => if isFirstChunk then Except.error "boom" else Except.ok "ok"

/-- Sample chunk with index 0. -/
def chunkA : CodeChunk := ⟨[recSmallA], 1, 0, "Chunk 1 - TypeScript files"⟩
/-- Sample chunk with index 1. -/
def chunkB : CodeChunk := ⟨[recSmallB], 2, 1, "Chunk 2 - TypeScript files"⟩

/-! ## Helper lemmas -/

theorem find?_append_or {α : Type} (p : α → Bool) :
    ∀ (l₁ l₂ : List α), (l₁ ++ l₂).find? p =
      match l₁.find? p with
      | some a => some a
      | none => l₂.find? p := by
  intro l₁ l₂
  induction l₁ with
  | nil => simp
  | cons a l ih =>
      by_cases h : p a = true
      · simp [List.find?_cons_of_pos, h]
      · simp only [List.cons_append]
        rw [List.find?_cons_of_neg _ (by simp [h]), List.find?_cons_of_neg _ (by simp [h]), ih]

theorem foldl_override_eq_find? (p : GitignoreRule → Bool) :
    ∀ (rules : List GitignoreRule) (acc : Bool),
      rules.foldl (fun a rule => if p rule then !rule.isNegation else a) acc =
        match rules.reverse.find? p with
        | some rule => !rule.isNegation
        | none => acc := by
  intro rules
  induction rules with
  | nil => intro acc; simp
  | cons r rs ih =>
      intro acc
      simp only [List.foldl_cons, List.reverse_cons]
      rw [ih, find?_append_or]
      rcases h : rs.reverse.find? p with _ | rule
      · by_cases hp : p r = true <;> simp [hp, List.find?]
      · rfl

/-! ## Claim theorems -/

/-- C1: `shouldIgnore` evaluates every rule in insertion order and returns
the negation-complement of the last rule whose pattern matches the
normalized root-relative path, and `false` when no rule matches. -/
theorem shouldIgnore_eq_lastMatchingRule (rules : List GitignoreRule)
    (workspaceRoot filePath : String) :
    shouldIgnore rules workspaceRoot filePath =
      match lastMatchingRule rules (normalizedRelativePath workspaceRoot filePath) with
      | some rule => !rule.isNegation
      | none => false := by
  simp only [shouldIgnore, lastMatchingRule]
  exact foldl_override_eq_find?
    (fun rule => matchesPattern (normalizedRelativePath workspaceRoot filePath) rule.pattern)
    rules false

/-- C4: `validateAPIKey` returns `false` for every environment value of the
API key (present, empty, or absent), because the stored key is compared for
inequality against the environment variable it was initialized from; hence
`validateWorkspace` never reports a valid workspace. -/
theorem validateAPIKey_always_false :
    ∀ (envApiKey : Option String),
      validateAPIKey envApiKey = false ∧
      ∀ (workspaceRootExists : Bool),
        (validateWorkspace workspaceRootExists envApiKey).isValid = false := by
  intro envApiKey
  have hkey : validateAPIKey envApiKey = false := by
    simp [validateAPIKey]
  refine ⟨hkey, ?_⟩
  intro workspaceRootExists
  cases workspaceRootExists <;> simp [validateWorkspace, hkey]

/-! ## Sorting lemmas (`createCodeChunks` comparator) -/

theorem cmpFile_total (a b : FileInfo) : cmpFile a b ≤ 0 ∨ cmpFile b a ≤ 0 := by
  unfold cmpFile
  rcases ha : a.isMainFile <;> rcases hb : b.isMainFile <;> simp [ha, hb] <;> omega

theorem cmpFile_trans {a b c : FileInfo}
    (hab : cmpFile a b ≤ 0) (hbc : cmpFile b c ≤ 0) : cmpFile a c ≤ 0 := by
  unfold cmpFile at *
  rcases ha : a.isMainFile <;> rcases hb : b.isMainFile <;> rcases hc : c.isMainFile <;>
    simp [ha, hb, hc] at * <;> omega

theorem insertFile_perm (x : FileInfo) (l : List FileInfo) :
    List.Perm (insertFile x l) (x :: l) := by
  induction l with
  | nil => simp [insertFile]
  | cons y ys ih =>
      by_cases h : cmpFile y x ≤ 0
      · simp only [insertFile, if_pos h]
        exact (ih.cons y).trans (List.Perm.swap x y ys)
      · simp only [insertFile, if_neg h]
        exact List.Perm.refl _

theorem insertFile_pairwise (x : FileInfo) (l : List FileInfo)
    (h : List.Pairwise (fun a b => cmpFile a b ≤ 0) l) :
    List.Pairwise (fun a b => cmpFile a b ≤ 0) (insertFile x l) := by
  induction l with
  | nil => simp [insertFile]
  | cons y ys ih =>
      rcases List.pairwise_cons.mp h with ⟨hy, hys⟩
      by_cases hcmp : cmpFile y x ≤ 0
      · simp only [insertFile, if_pos hcmp]
        refine List.pairwise_cons.mpr ⟨?_, ih hys⟩
        intro z hz
        rcases List.mem_cons.mp (((insertFile_perm x ys).mem_iff).mp hz) with rfl | hz'
        · exact hcmp
        · exact hy z hz'
      · simp only [insertFile, if_neg hcmp]
        refine List.pairwise_cons.mpr ⟨?_, h⟩
        intro z hz
        have hxy : cmpFile x y ≤ 0 := (cmpFile_total x y).resolve_right fun hh => hcmp hh
        rcases List.mem_cons.mp hz with rfl | hz'
        · exact hxy
        · exact cmpFile_trans hxy (hy z hz')

theorem sortFiles_pairwise (fileInfos : List FileInfo) :
    List.Pairwise (fun a b => cmpFile a b ≤ 0) (sortFiles fileInfos) := by
  have key : ∀ (l acc : List FileInfo),
      List.Pairwise (fun a b => cmpFile a b ≤ 0) acc →
      List.Pairwise (fun a b => cmpFile a b ≤ 0)
        (l.foldl (fun acc x => insertFile x acc) acc) := by
    intro l
    induction l with
    | nil => intro acc h; exact h
    | cons x xs ih => intro acc h; exact ih _ (insertFile_pairwise x acc h)
  exact key fileInfos [] (by simp)

theorem sortFiles_perm (fileInfos : List FileInfo) :
    List.Perm (sortFiles fileInfos) fileInfos := by
  have key : ∀ (l acc : List FileInfo),
      List.Perm (l.foldl (fun acc x => insertFile x acc) acc) (acc ++ l) := by
    intro l
    induction l with
    | nil => intro acc; simp
    | cons x xs ih =>
        intro acc
        have h1 := ih (insertFile x acc)
        have h2 : List.Perm (insertFile x acc ++ xs) ((x :: acc) ++ xs) :=
          (insertFile_perm x acc).append_right xs
        exact (h1.trans h2).trans List.perm_middle.symm
  simpa using key fileInfos []

/-- C5 (amended): the chunker's sort places every entry file before every
non-entry file and orders files within each group by descending size
(stable only between equal-comparing files); the result is a permutation of
the input, and on the example `{A: entry 10, B: non-entry 100, C: non-entry 50}`
the packed order is `A, B, C`. -/
theorem sortFiles_entry_first_desc_size :
    (∀ (a b : FileInfo), cmpFile a b ≤ 0 ↔
      ((a.isMainFile = true ∧ b.isMainFile = false) ∨
        (a.isMainFile = b.isMainFile ∧ b.size ≤ a.size))) ∧
    (∀ (fileInfos : List FileInfo),
      List.Pairwise (fun a b => cmpFile a b ≤ 0) (sortFiles fileInfos) ∧
      List.Perm (sortFiles fileInfos) fileInfos) ∧
    sortFiles [recEntry10, recNonEntry100, recNonEntry50] =
      [recEntry10, recNonEntry100, recNonEntry50] := by
  refine ⟨?_, fun fileInfos => ⟨sortFiles_pairwise fileInfos, sortFiles_perm fileInfos⟩,
    by decide⟩
  intro a b
  unfold cmpFile
  rcases ha : a.isMainFile <;> rcases hb : b.isMainFile <;> simp [ha, hb] <;> omega

/-- C5 counterexample: two entry files listed in order `main.ts` (size 10),
`app.ts` (size 20) are re-ordered by descending size, so entry files are
not kept stable in their original relative order. -/
theorem sortFiles_entry_not_stable :
    recEntryMain10.isMainFile = true ∧ recEntryApp20.isMainFile = true ∧
    sortFiles [recEntryMain10, recEntryApp20] = [recEntryApp20, recEntryMain10] ∧
    sortFiles [recEntryMain10, recEntryApp20] ≠ [recEntryMain10, recEntryApp20] := by
  decide

/-! ## Chunking lemmas -/

theorem tokenSum_append (est : String → Nat) (l₁ l₂ : List FileInfo) :
    tokenSum est (l₁ ++ l₂) = tokenSum est l₁ + tokenSum est l₂ := by
  simp [tokenSum]

theorem createChunk_files (files : List FileInfo) (totalTokens chunkIndex : Nat) :
    (createChunk files totalTokens chunkIndex).files = files := rfl

theorem chunkLoop_join (est : String → Nat) (maxTokensPerChunk : Nat) :
    ∀ (fs currentChunk : List FileInfo) (currentTokens chunkIndex : Nat),
      ((chunkLoop est maxTokensPerChunk fs currentChunk currentTokens chunkIndex).map
        (fun c => c.files)).join = currentChunk ++ fs := by
  intro fs
  induction fs with
  | nil =>
      intro cur tok idx
      by_cases h : cur.isEmpty
      · simp [chunkLoop, h, List.isEmpty_iff.mp h]
      · simp [chunkLoop, h, createChunk_files]
  | cons f rest ih =>
      intro cur tok idx
      simp only [chunkLoop]
      by_cases h1 : tok + est f.content > maxTokensPerChunk ∧ 0 < cur.length
      · rw [if_pos h1]
        by_cases h2 : est f.content > maxTokensPerChunk
        · rw [if_pos h2]
          simp [createChunk_files, ih]
        · rw [if_neg h2]
          simp [createChunk_files, ih]
      · rw [if_neg h1]
        by_cases h2 : est f.content > maxTokensPerChunk
        · rw [if_pos h2]
          have hcur : cur = [] := by
            rcases List.eq_nil_or_concat cur with hnil | ⟨l, a, rfl⟩
            · exact hnil
            · exact absurd ⟨by omega, by simp⟩ h1
          subst hcur
          simp [createChunk_files, ih]
        · rw [if_neg h2]
          rw [ih]
          simp

/-- C2: concatenating the file lists of all emitted batches, in order,
yields exactly the sorted input sequence — no record duplicated or
dropped, order preserved. -/
theorem createCodeChunks_join_eq_sortFiles (est : String → Nat)
    (maxTokensPerChunk : Nat) (fileInfos : List FileInfo) :
    ((createCodeChunks est maxTokensPerChunk fileInfos).map (fun c => c.files)).join =
      sortFiles fileInfos := by
  unfold createCodeChunks
  simpa using chunkLoop_join est maxTokensPerChunk (sortFiles fileInfos) [] 0 0

theorem chunkLoop_budget (est : String → Nat) (maxTokensPerChunk : Nat) :
    ∀ (fs currentChunk : List FileInfo) (currentTokens chunkIndex : Nat),
      currentTokens = tokenSum est currentChunk →
      currentTokens ≤ maxTokensPerChunk →
      ∀ c ∈ chunkLoop est maxTokensPerChunk fs currentChunk currentTokens chunkIndex,
        tokenSum est c.files ≤ maxTokensPerChunk ∨
          ∃ f, c.files = [f] ∧ maxTokensPerChunk < est f.content := by
  intro fs
  induction fs with
  | nil =>
      intro cur tok idx htok hle c hc
      by_cases h : cur.isEmpty
      · simp [chunkLoop, h] at hc
      · simp [chunkLoop, h] at hc
        subst hc
        left
        rw [createChunk_files, ← htok]
        exact hle
  | cons f rest ih =>
      intro cur tok idx htok hle c hc
      simp only [chunkLoop] at hc
      by_cases h1 : tok + est f.content > maxTokensPerChunk ∧ 0 < cur.length
      · rw [if_pos h1] at hc
        by_cases h2 : est f.content > maxTokensPerChunk
        · rw [if_pos h2] at hc
          rcases List.mem_cons.mp hc with rfl | hc'
          · left; rw [createChunk_files, ← htok]; exact hle
          rcases List.mem_cons.mp hc' with rfl | hc''
          · right; exact ⟨f, createChunk_files _ _ _, h2⟩
          · exact ih [] 0 (idx + 2) rfl (Nat.zero_le _) c hc''
        · rw [if_neg h2] at hc
          rcases List.mem_cons.mp hc with rfl | hc'
          · left; rw [createChunk_files, ← htok]; exact hle
          · exact ih [f] (est f.content) (idx + 1) (by simp [tokenSum]) (by omega) c hc'
      · rw [if_neg h1] at hc
        by_cases h2 : est f.content > maxTokensPerChunk
        · rw [if_pos h2] at hc
          rcases List.mem_cons.mp hc with rfl | hc'
          · right; exact ⟨f, createChunk_files _ _ _, h2⟩
          · exact ih [] 0 (idx + 1) rfl (Nat.zero_le _) c hc'
        · rw [if_neg h2] at hc
          have hfit : tok + est f.content ≤ maxTokensPerChunk := by
            by_cases hcur : 0 < cur.length
            · by_contra hgt
              exact h1 ⟨by omega, hcur⟩
            · have hnil : cur = [] := List.length_eq_zero.mp (by omega)
              subst hnil
              simp [tokenSum] at htok
              omega
          exact ih (cur ++ [f]) (tok + est f.content) idx
            (by rw [htok, tokenSum_append]; simp [tokenSum]) hfit c hc

/-- C3: every emitted batch that contains more than one file, or whose
single file's own token estimate (`ceil(length/4)`) does not exceed the
budget, has a per-file token-estimate sum within `maxTokensPerChunk`; only
a single-file oversized batch may exceed it. -/
theorem createCodeChunks_token_budget (fileInfos : List FileInfo)
    (maxTokensPerChunk : Nat) (c : CodeChunk)
    (hc : c ∈ createCodeChunks estimateTokenCount maxTokensPerChunk fileInfos)
    (hshape : 1 < c.files.length ∨
      ∃ f, c.files = [f] ∧ estimateTokenCount f.content ≤ maxTokensPerChunk) :
    tokenSum estimateTokenCount c.files ≤ maxTokensPerChunk := by
  have h := chunkLoop_budget estimateTokenCount maxTokensPerChunk
    (sortFiles fileInfos) [] 0 0 rfl (Nat.zero_le _) c (by simpa [createCodeChunks] using hc)
  rcases h with h | ⟨f, hf, hgt⟩
  · exact h
  · rcases hshape with hlen | ⟨f', hf', hle⟩
    · rw [hf] at hlen
      simp at hlen
    · have heq : f' = f := by
        have := hf'.symm.trans hf
        injection this
      subst heq
      omega

/-- Witness for C3 at a concrete run: budget 5, records of 1 and 2
estimated tokens pack into one two-file batch within budget. -/
theorem createCodeChunks_token_budget_witness :
    tokenSum estimateTokenCount
      (CodeChunk.mk [recSmallB, recSmallA] 3 0 "Chunk 1 - TypeScript files").files ≤ 5 :=
  createCodeChunks_token_budget [recSmallA, recSmallB] 5
    ⟨[recSmallB, recSmallA], 3, 0, "Chunk 1 - TypeScript files"⟩
    (by decide) (Or.inl (by decide))

/-! ## Pattern branch and project-type theorems -/

/-- C6 (amended): for every pattern that contains `*` and does not end in
`/**`, `matchesPattern` compiles the pattern to an anchored regex
(`.` escaped, `*` → `.*`, `?` → `.`) and returns true iff that regex fully
matches the whole path, its final segment, or any individual segment.
Patterns containing `?` but no `*`, and patterns ending in `/**`, take the
literal respectively directory branch instead. -/
theorem matchesPattern_star_regex_branch (filePath pattern : String)
    (hstar : strContainsChar pattern '*' = true)
    (hdir : strEndsWith pattern "/**" = false) :
    matchesPattern filePath pattern =
      (reMatch (compileGlob pattern.toList) filePath.toList ||
        reMatch (compileGlob pattern.toList) (basename filePath).toList ||
        (splitSegments filePath).any
          (fun segment => reMatch (compileGlob pattern.toList) segment.toList)) := by
  simp [matchesPattern, hstar, hdir]

/-- Witness for C6: the wildcard pattern `*.log` on path `a/b.log` takes
the regex branch. -/
theorem matchesPattern_star_regex_branch_witness :
    matchesPattern "a/b.log" "*.log" =
      (reMatch (compileGlob ("*.log".toList)) ("a/b.log".toList) ||
        reMatch (compileGlob ("*.log".toList)) (basename "a/b.log").toList ||
        (splitSegments "a/b.log").any
          (fun segment => reMatch (compileGlob ("*.log".toList)) segment.toList)) :=
  matchesPattern_star_regex_branch "a/b.log" "*.log" (by decide) (by decide)

/-- C6 counterexample: the pattern `fo?` contains `?` but no `*`, so the
code takes the literal branch and rejects `foo`, although the claimed
regex semantics (`fo.` anchored) accepts it. -/
theorem matchesPattern_question_counterexample :
    matchesPattern "foo" "fo?" = false ∧
    (reMatch (compileGlob ("fo?".toList)) ("foo".toList) ||
      reMatch (compileGlob ("fo?".toList)) (basename "foo").toList ||
      (splitSegments "foo").any
        (fun segment => reMatch (compileGlob ("fo?".toList)) segment.toList)) = true := by
  decide

/-- C7 (amended): the project-type cascade is first-match-wins: with
`package.json` present the result is the React/Vue/Next/Node chain; with
`requirements.txt` and `manage.py` present and no `package.json`, the
result is "Django Application"; a collection containing only `go.mod`
yields "Go Module". -/
theorem determineProjectType_cascade :
    (∀ (fileInfos : List FileInfo) (languages : List String),
        hasFile fileInfos "package.json" = true →
        determineProjectType fileInfos languages =
          (if hasExtension fileInfos ".jsx" || hasExtension fileInfos ".tsx" then
            "React Application"
          else if hasExtension fileInfos ".vue" then "Vue.js Application"
          else if hasFile fileInfos "next.config.js" || hasFile fileInfos "next.config.ts" then
            "Next.js Application"
          else "Node.js Application")) ∧
    (∀ (fileInfos : List FileInfo) (languages : List String),
        hasFile fileInfos "package.json" = false →
        hasFile fileInfos "requirements.txt" = true →
        hasFile fileInfos "manage.py" = true →
        determineProjectType fileInfos languages = "Django Application") ∧
    determineProjectType [recGoMod] [] = "Go Module" := by
  refine ⟨?_, ?_, by decide⟩
  · intro fileInfos languages h
    simp [determineProjectType, h]
  · intro fileInfos languages h1 h2 h3
    simp [determineProjectType, h1, h2, h3]

/-- Witness for C7 at concrete file sets. -/
theorem determineProjectType_cascade_witness :
    determineProjectType [recPackageJson, recAppTsx] [] = "React Application" ∧
    determineProjectType [recRequirements, recManagePy] [] = "Django Application" := by
  constructor
  · rw [determineProjectType_cascade.1 [recPackageJson, recAppTsx] [] (by decide)]
    decide
  · exact determineProjectType_cascade.2.1 [recRequirements, recManagePy] []
      (by decide) (by decide) (by decide)

/-- C7 counterexample: a file set containing `requirements.txt` and
`manage.py` but also `package.json` is classified "Node.js Application",
not "Django Application". -/
theorem determineProjectType_django_counterexample :
    hasFile [recPackageJson, recRequirements, recManagePy] "requirements.txt" = true ∧
    hasFile [recPackageJson, recRequirements, recManagePy] "manage.py" = true ∧
    determineProjectType [recPackageJson, recRequirements, recManagePy] [] =
      "Node.js Application" ∧
    determineProjectType [recPackageJson, recRequirements, recManagePy] [] ≠
      "Django Application" := by
  decide

theorem foldl_dedup_const (lang : String) :
    ∀ (xs : List String), (∀ x ∈ xs, x = lang) →
      xs.foldl (fun acc x => if acc.contains x then acc else acc ++ [x]) [lang] = [lang] := by
  intro xs
  induction xs with
  | nil => intro _; rfl
  | cons x rest ih =>
      intro h
      have hx : x = lang := h x (List.mem_cons_self x rest)
      subst hx
      simp only [List.foldl_cons]
      rw [if_pos (by simp : ([x] : List String).contains x = true)]
      exact ih fun y hy => h y (List.mem_cons_of_mem x hy)

theorem dedupKeepFirst_const (lang : String) (xs : List String)
    (h : ∀ x ∈ xs, x = lang) :
    dedupKeepFirst xs = if xs = [] then [] else [lang] := by
  cases xs with
  | nil => rfl
  | cons x rest =>
      have hx : x = lang := h x (List.mem_cons_self x rest)
      subst hx
      simp only [dedupKeepFirst, List.foldl_cons]
      rw [if_neg (by simp : ¬(([] : List String).contains x = true))]
      simp only [List.nil_append]
      rw [foldl_dedup_const x rest fun y hy => h y (List.mem_cons_of_mem _ hy)]
      simp

/-- C8 (amended): for a record collection with none of the recognized
manifest files and every language label `"Unknown"`, the reported project
type is "Unknown Project" when the collection is nonempty — the language
list handed to the cascade is not filtered of `"Unknown"` — and
"Software Project" only for the empty collection. -/
theorem analyzeProjectStructure_unknown (records : List FileInfo)
    (hmanifest : ∀ name ∈ manifestNames, hasFile records name = false)
    (hunknown : ∀ f ∈ records, f.language = "Unknown") :
    (analyzeProjectStructure records).projectType =
      if records = [] then "Software Project" else "Unknown Project" := by
  have hlang : dedupKeepFirst (records.map fun f => f.language) =
      if records = [] then [] else ["Unknown"] := by
    rw [dedupKeepFirst_const "Unknown" _ ?_]
    · cases records <;> simp
    · intro x hx
      rcases List.mem_map.mp hx with ⟨f, hf, rfl⟩
      exact hunknown f hf
  have h1 := hmanifest "package.json" (by decide)
  have h2 := hmanifest "setup.py" (by decide)
  have h3 := hmanifest "requirements.txt" (by decide)
  have h4 := hmanifest "pom.xml" (by decide)
  have h5 := hmanifest "build.gradle" (by decide)
  have h6 := hmanifest "go.mod" (by decide)
  have h7 := hmanifest "cargo.toml" (by decide)
  have h8 := hmanifest "pubspec.yaml" (by decide)
  show determineProjectType records (dedupKeepFirst (records.map fun f => f.language)) = _
  rw [hlang]
  cases records with
  | nil => simp [determineProjectType, hasFile]
  | cons r rs =>
      simp only [determineProjectType, h1, h2, h3, h4, h5, h6, h7, h8]
      simp

/-- Witness for C8 at a one-record collection with language `"Unknown"`. -/
theorem analyzeProjectStructure_unknown_witness :
    (analyzeProjectStructure [recUnknownData]).projectType =
      if ([recUnknownData] : List FileInfo) = [] then "Software Project"
      else "Unknown Project" :=
  analyzeProjectStructure_unknown [recUnknownData] (by decide) (by decide)

/-- C8 counterexample: a nonempty collection with no manifest files and
only `"Unknown"` languages is reported as "Unknown Project", not
"Software Project". -/
theorem analyzeProjectStructure_unknown_counterexample :
    (∀ name ∈ manifestNames, hasFile [recUnknownData] name = false) ∧
    (∀ f ∈ ([recUnknownData] : List FileInfo), f.language = "Unknown") ∧
    (analyzeProjectStructure [recUnknownData]).projectType = "Unknown Project" ∧
    (analyzeProjectStructure [recUnknownData]).projectType ≠ "Software Project" := by
  refine ⟨by decide, by decide, by decide, by decide⟩

/-! ## Discovery soundness -/

theorem traverseDirectory_sound (rules : List GitignoreRule) (workspaceRoot : String)
    (es : FSEntryList) :
    ∀ (dirPath p : String), p ∈ traverseDirectory rules workspaceRoot es dirPath →
      shouldIgnore rules workspaceRoot p = false ∧ isBinaryFile p = false := by
  refine @FSEntryList.rec
    (fun entry => ∀ (dirPath p : String),
      p ∈ traverseEntry rules workspaceRoot entry dirPath →
      shouldIgnore rules workspaceRoot p = false ∧ isBinaryFile p = false)
    (fun l => ∀ (dirPath p : String),
      p ∈ traverseDirectory rules workspaceRoot l dirPath →
      shouldIgnore rules workspaceRoot p = false ∧ isBinaryFile p = false)
    ?_ ?_ ?_ ?_ es
  · intro name dirPath p hp
    simp only [traverseEntry] at hp
    by_cases hcond :
        (!shouldIgnore rules workspaceRoot (dirPath ++ "/" ++ name) &&
          !isBinaryFile (dirPath ++ "/" ++ name)) = true
    · rw [if_pos hcond] at hp
      rcases List.mem_singleton.mp hp with rfl
      simpa using hcond
    · rw [if_neg hcond] at hp
      simp at hp
  · intro name children ih dirPath p hp
    simp only [traverseEntry] at hp
    by_cases hcond : (!shouldIgnore rules workspaceRoot (dirPath ++ "/" ++ name)) = true
    · rw [if_pos hcond] at hp
      exact ih (dirPath ++ "/" ++ name) p hp
    · rw [if_neg hcond] at hp
      simp at hp
  · intro dirPath p hp
    simp [traverseDirectory] at hp
  · intro entry rest ihe ihr dirPath p hp
    simp only [traverseDirectory] at hp
    rcases List.mem_append.mp hp with h | h
    · exact ihe dirPath p h
    · exact ihr dirPath p h

/-- C9: every path returned by discovery satisfies both
`shouldIgnore = false` and `isBinaryFile = false`: no discovered file is
binary and none is excluded by the effective ignore-rule evaluation. -/
theorem discoverFiles_sound (rules : List GitignoreRule) (workspaceRoot : String)
    (entries : FSEntryList) (p : String)
    (hp : p ∈ discoverFiles rules workspaceRoot entries) :
    shouldIgnore rules workspaceRoot p = false ∧ isBinaryFile p = false :=
  traverseDirectory_sound rules workspaceRoot entries workspaceRoot p hp

/-- Witness for C9: discovery on a sample tree returns `r/a.ts`, which is
neither ignored nor binary. -/
theorem discoverFiles_sound_witness :
    shouldIgnore sampleRules "r" "r/a.ts" = false ∧ isBinaryFile "r/a.ts" = false :=
  discoverFiles_sound sampleRules "r" sampleTree "r/a.ts" (by decide)

/-! ## Per-chunk generation with fallback -/

theorem enumFrom_get? {α : Type} (l : List α) :
    ∀ (n i : Nat), (List.enumFrom n l).get? i = (l.get? i).map fun a => (n + i, a) := by
  induction l with
  | nil => intro n i; simp
  | cons x xs ih =>
      intro n i
      cases i with
      | zero => simp
      | succ j =>
          have harith : n + (j + 1) = (n + 1) + j := by omega
          simp only [List.enumFrom, List.get?_cons_succ, ih (n + 1) j, harith]

theorem processChunks_get? (generate : CodeChunk → Bool → Except String String)
    (chunks : List CodeChunk) (i : Nat) :
    (processChunks generate chunks).get? i =
      (chunks.get? i).map fun chunk =>
        match generate chunk (i == 0) with
        | Except.ok content => content
        | Except.error _ => createFallbackContent chunk (i == 0) := by
  simp only [processChunks, List.enum, List.get?_map, enumFrom_get?, Nat.zero_add]
  cases chunks.get? i <;> simp

/-- C10: for every batch list and remote-call outcome function, generation
returns exactly one text per batch; a batch whose remote call fails gets
the deterministic fallback (for the first batch, a stub document listing
the batch's file paths; otherwise a fixed placeholder section), and a
successful batch gets its generated content — no single failure aborts the
rest. -/
theorem processChunks_fallback (generate : CodeChunk → Bool → Except String String)
    (chunks : List CodeChunk) :
    (processChunks generate chunks).length = chunks.length ∧
    (∀ (i : Nat) (chunk : CodeChunk), chunks.get? i = some chunk →
      (∀ e : String, generate chunk (i == 0) = Except.error e →
        (processChunks generate chunks).get? i =
          some (createFallbackContent chunk (i == 0))) ∧
      (∀ content : String, generate chunk (i == 0) = Except.ok content →
        (processChunks generate chunks).get? i = some content)) ∧
    (∀ chunk : CodeChunk,
      createFallbackContent chunk true =
        "# Project README\n\n## Overview\nThis is an auto-generated README for your project.\n\n## Files Analyzed\n" ++
          joinWith "\n" (chunk.files.map fun file => "- " ++ file.path) ++
          "\n\n*Note: This content was generated as a fallback due to AI processing issues.*" ∧
      createFallbackContent chunk false =
        "\n## Additional Components\n\n*Additional project components detected but could not be processed by AI.*") := by
  refine ⟨by simp [processChunks], ?_, fun chunk => ⟨rfl, rfl⟩⟩
  intro i chunk hchunk
  constructor
  · intro e he
    rw [processChunks_get?, hchunk]
    simp [he]
  · intro content hcontent
    rw [processChunks_get?, hchunk]
    simp [hcontent]

/-- Witness for C10: with a remote call that fails on the first chunk and
succeeds afterwards, the first result is the fallback stub and the second
is the generated text. -/
theorem processChunks_fallback_witness :
    (processChunks genFailFirst [chunkA, chunkB]).get? 0 =
      some (createFallbackContent chunkA ((0 : Nat) == 0)) ∧
    (processChunks genFailFirst [chunkA, chunkB]).get? 1 = some "ok" :=
  ⟨((processChunks_fallback genFailFirst [chunkA, chunkB]).2.1 0 chunkA rfl).1 "boom" rfl,
   ((processChunks_fallback genFailFirst [chunkA, chunkB]).2.1 1 chunkB rfl).2 "ok" rfl⟩
